import Mathlib

/-!
Shallow embedding of src/timer.py.

Conventions of the embedding:
* Python floats are modelled as rationals.  Python samples are elapsed-time
  floats; every Python float is a dyadic rational and has a terminating
  decimal expansion, and CPython guarantees that for every float v,
  float(str(v)) == v exactly (shortest-round-tripping repr).  The functions
  pyStr and pyFloat below model str/float on such numbers: pyStr prints the
  exact terminating decimal expansion, pyFloat parses an optional sign,
  an integer part, and an optional fractional part.  (CPython sometimes
  prints scientific notation instead; both forms parse back exactly, so the
  round-trip contract, which is what the spec talks about, is preserved.)
* Python exceptions are modelled with Except PyError; TypeError and
  ValueError are the two kinds the claims need.
* The redis connection is modelled as an explicit state
  (key/value list store) plus a log of the remote operations performed,
  so that "which remote operations ran, in which order" is provable.
* The blinker notification (timer_end.send, timer.py line 100-101) has no
  observable effect on the store or on the values returned and is elided.
-/

/-- Python exception kinds needed by the model. -/
inductive PyError where
  | typeError
  | valueError
deriving DecidableEq

/-- The decimal digit character for d (0-9); total, defaults to '9'. -/
def charOfDigit (d : Nat) : Char :=
  if d = 0 then '0' else if d = 1 then '1' else if d = 2 then '2' else if d = 3 then '3'
  else if d = 4 then '4' else if d = 5 then '5' else if d = 6 then '6' else if d = 7 then '7'
  else if d = 8 then '8' else '9'

/-- The digit value of a decimal digit character, none on other characters. -/
def digitOfChar (c : Char) : Option Nat :=
  if c = '0' then some 0 else if c = '1' then some 1 else if c = '2' then some 2
  else if c = '3' then some 3 else if c = '4' then some 4 else if c = '5' then some 5
  else if c = '6' then some 6 else if c = '7' then some 7 else if c = '8' then some 8
  else if c = '9' then some 9 else none

/-- Big-endian decimal digits of n (empty for 0); fuelled structural recursion,
any fuel at least n is enough. -/
def natCharsAux : Nat → Nat → List Char
  | 0, _ => []
  | fuel + 1, n =>
      if n = 0 then []
      else natCharsAux fuel (n / 10) ++ [charOfDigit (n % 10)]

/-- Big-endian decimal digit string of a natural number ("0" for 0). -/
def natChars (n : Nat) : List Char :=
  if n = 0 then ['0'] else natCharsAux n n

/-- Fold decimal digit characters onto an accumulator; none on a non-digit. -/
def parseDigitsAux : List Char → Nat → Option Nat
  | [], acc => some acc
  | c :: cs, acc =>
      match digitOfChar c with
      | some d => parseDigitsAux cs (10 * acc + d)
      | none => none

/-- Split a character list at the first '.', keeping what precedes and what
follows it (none if there is no dot). -/
def splitAtDot : List Char → List Char × Option (List Char)
  | [] => ([], none)
  | c :: cs =>
      if c = '.' then ([], some cs)
      else
        let p := splitAtDot cs
        (c :: p.1, p.2)

/-- Parse an unsigned decimal literal (integer part mandatory, fractional part
optional) into a rational; models float() on the strings pyStr produces. -/
def pyFloatCore (l : List Char) : Option ℚ :=
  let p := splitAtDot l
  if p.1 = [] then none
  else
    match parseDigitsAux p.1 0 with
    | none => none
    | some i =>
        match p.2 with
        | none => some (mkRat i 1)
        | some fp =>
            match parseDigitsAux fp 0 with
            | none => none
            | some f => some (mkRat (i * 10 ^ fp.length + f) (10 ^ fp.length))

/-- Model of Python float(string): optional leading minus then an unsigned
decimal literal.  Returns none (a ValueError in Python) on malformed input. -/
def pyFloat (s : String) : Option ℚ :=
  match s.data with
  | [] => none
  | c :: cs =>
      if c = '-' then
        match cs with
        | [] => none
        | _ :: _ => (pyFloatCore cs).map (fun x => -x)
      else pyFloatCore (c :: cs)

/-- Divide out the factor p from n as often as possible, returning the number
of divisions and the remaining cofactor; fuelled, any fuel at least n works. -/
def stripCount (p : Nat) : Nat → Nat → Nat × Nat
  | 0, n => (0, n)
  | fuel + 1, n =>
      if n % p = 0 ∧ n ≠ 0 then
        let r := stripCount p fuel (n / p)
        (r.1 + 1, r.2)
      else (0, n)

/-- Least positive number of decimal places sufficient for denominator d, i.e.
some k with d dividing 10 ^ k, when d has only the prime factors 2 and 5;
none otherwise. -/
def decExp (d : Nat) : Option Nat :=
  let s2 := stripCount 2 d d
  let s5 := stripCount 5 s2.2 s2.2
  if s5.2 = 1 then some (max (max s2.1 s5.1) 1) else none

/-- Model of Python str on a float value: the exact terminating decimal
expansion with at least one fractional digit (str(3.0) is "3.0",
str(0.0025) is "0.0025").  Rationals that are not decimal-terminating are
not Python floats; for them a placeholder is returned (unreachable in the
claims, which quantify over float values). -/
def pyStr (q : ℚ) : String :=
  match decExp q.den with
  | some k =>
      let m : Nat := q.num.natAbs * 10 ^ k / q.den
      let ip := natChars (m / 10 ^ k)
      let fr := natChars (m % 10 ^ k)
      let frac := List.replicate (k - fr.length) '0' ++ fr
      let body := ip ++ '.' :: frac
      String.mk (if q.num < 0 then '-' :: body else body)
  | none => String.mk ['?']

/-- Lookup in an insertion-ordered association list (Python dict lookup). -/
def assocFind {α : Type} : List (String × α) → String → Option α
  | [], _ => none
  | kv :: rest, id => if kv.1 = id then some kv.2 else assocFind rest id

/-- Replace the binding of a key, or append a new binding at the end
(Python dict assignment, insertion-ordered). -/
def assocSet {α : Type} : List (String × α) → String → α → List (String × α)
  | [], id, x => [(id, x)]
  | kv :: rest, id, x =>
      if kv.1 = id then (id, x) :: rest else kv :: assocSet rest id x

/-- Remove the binding of a key, if present. -/
def assocRemove {α : Type} : List (String × α) → String → List (String × α)
  | [], _ => []
  | kv :: rest, id => if kv.1 = id then rest else kv :: assocRemove rest id

/-- Creation of collections.deque(maxlen=limit): raises ValueError when the
requested maxlen is negative, otherwise yields an empty deque. -/
def dequeNew (limit : Int) : Except PyError (List ℚ) :=
  if limit < 0 then Except.error PyError.valueError else Except.ok []

/-- deque.append on a deque with maxlen=limit: append on the right and, when
the bound is exceeded, silently discard from the left (so maxlen = 0
retains nothing). -/
def dequeAppend (limit : Int) (xs : List ℚ) (v : ℚ) : List ℚ :=
  let ys := xs ++ [v]
  ys.drop (ys.length - limit.toNat)

/-- The in-memory store: defaultdict(lambda: deque(maxlen=limit)).
limit is the maxlen every per-key deque is created with; tbl is the
insertion-ordered mapping from identifier to its deque. -/
structure MemStore where
  limit : Int
  tbl : List (String × List ℚ)
deriving DecidableEq

/-- timer.py line 28: InMemoryBackend = lambda limit: defaultdict(lambda:
deque(maxlen=limit)).  Note the construction itself performs no validation
at all: the inner deque(maxlen=limit) lambda only runs lazily on the first
access to a missing key, so even a negative limit constructs successfully. -/
def InMemoryBackend (limit : Int) : MemStore :=
  MemStore.mk limit []

/-- Membership test (ident in store / ident not in store): a defaultdict
membership test does NOT invoke the default factory. -/
def memContains (m : MemStore) (id : String) : Bool :=
  (assocFind m.tbl id).isSome

/-- defaultdict.__getitem__: return the existing deque, or run the default
factory deque(maxlen=limit) (which raises ValueError for a negative limit)
and insert the fresh empty deque under the key. -/
def memGetItem (m : MemStore) (id : String) : Except PyError (List ℚ × MemStore) :=
  match assocFind m.tbl id with
  | some xs => Except.ok (xs, m)
  | none =>
      match dequeNew m.limit with
      | Except.error e => Except.error e
      | Except.ok d => Except.ok (d, MemStore.mk m.limit (m.tbl ++ [(id, d)]))

/-- self.measures[ident].append(v) on the in-memory backend: getitem
(vivifying a missing key) followed by an in-place bounded deque append. -/
def memAppend (m : MemStore) (id : String) (v : ℚ) : Except PyError MemStore :=
  match memGetItem m id with
  | Except.error e => Except.error e
  | Except.ok (xs, m1) =>
      Except.ok (MemStore.mk m1.limit (assocSet m1.tbl id (dequeAppend m1.limit xs v)))

/-- The samples currently retained for an identifier (empty if the key was
never touched). -/
def memSamples (m : MemStore) (id : String) : List ℚ :=
  (assocFind m.tbl id).getD []

/-- A sequence of store-level appends to one identifier, in order. -/
def memAppendAll (m : MemStore) (id : String) : List ℚ → Except PyError MemStore
  | [] => Except.ok m
  | v :: vs =>
      match memAppend m id v with
      | Except.error e => Except.error e
      | Except.ok m1 => memAppendAll m1 id vs

/-- One remote redis operation, recorded in the order the client issues them. -/
inductive RedisOp where
  | rexists (key : String)
  | llen (key : String)
  | lrange (key : String) (start stop : Int)
  | lpush (key : String) (value : String)
  | ltrim (key : String) (start stop : Int)
deriving DecidableEq

/-- The modelled redis server: a mapping from key to the stored list
(head = leftmost = most recently pushed), plus the log of every remote
operation performed on the connection. -/
structure RedisState where
  data : List (String × List String)
  log : List RedisOp
deriving DecidableEq

/-- Normalize a redis (start, stop) index pair against a list of length n and
return the selected sublist: negative indices count from the end, indices are
clamped to the list, and an empty selection results when start exceeds stop. -/
def sliceRange {α : Type} (l : List α) (start stop : Int) : List α :=
  let n : Int := l.length
  let s := max (if start < 0 then start + n else start) 0
  let e := min (if stop < 0 then stop + n else stop) (n - 1)
  if s ≤ e then (l.take (e.toNat + 1)).drop s.toNat else []

/-- redis.exists(key). -/
def redisExists (st : RedisState) (k : String) : Bool × RedisState :=
  ((assocFind st.data k).isSome, RedisState.mk st.data (st.log ++ [RedisOp.rexists k]))

/-- redis.llen(key): 0 for a missing key. -/
def redisLlen (st : RedisState) (k : String) : Nat × RedisState :=
  (((assocFind st.data k).getD []).length, RedisState.mk st.data (st.log ++ [RedisOp.llen k]))

/-- redis.lrange(key, start, stop): the selected entries, [] for a missing key. -/
def redisLrange (st : RedisState) (k : String) (start stop : Int) :
    List String × RedisState :=
  (sliceRange ((assocFind st.data k).getD []) start stop,
   RedisState.mk st.data (st.log ++ [RedisOp.lrange k start stop]))

/-- redis.lpush(key, value): prepend to the list, creating the key if absent. -/
def redisLpush (st : RedisState) (k : String) (v : String) : RedisState :=
  RedisState.mk (assocSet st.data k (v :: (assocFind st.data k).getD []))
    (st.log ++ [RedisOp.lpush k v])

/-- redis.ltrim(key, start, stop): keep only the selected range; redis removes
the key entirely when the remaining list is empty. -/
def redisLtrim (st : RedisState) (k : String) (start stop : Int) : RedisState :=
  let kept := sliceRange ((assocFind st.data k).getD []) start stop
  RedisState.mk (if kept = [] then assocRemove st.data k else assocSet st.data k kept)
    (st.log ++ [RedisOp.ltrim k start stop])

/-- timer.py lines 32-36: a RedisBackendItem holds the prefixed key and the
limit (the connection is the threaded RedisState). -/
structure RedisBackendItem where
  key : String
  limit : Int
deriving DecidableEq

/-- timer.py lines 45-47, RedisBackendItem.append: lpush the decimal string
representation, then ltrim the list to indices 0 .. limit-1. -/
def RedisBackendItem.append (it : RedisBackendItem) (st : RedisState) (v : ℚ) :
    RedisState :=
  redisLtrim (redisLpush st it.key (pyStr v)) it.key 0 (it.limit - 1)

/-- Parse every fetched entry with float(value); the first malformed entry
raises ValueError (timer.py line 43). -/
def parseAll : List String → Except PyError (List ℚ)
  | [] => Except.ok []
  | s :: rest =>
      match pyFloat s with
      | none => Except.error PyError.valueError
      | some q =>
          match parseAll rest with
          | Except.error e => Except.error e
          | Except.ok qs => Except.ok (q :: qs)

/-- timer.py lines 38-43: len is llen; iteration fetches lrange(key, 0, -1)
and lazily parses each entry back to a float. -/
def RedisBackendItem.iter (it : RedisBackendItem) (st : RedisState) :
    Except PyError (List ℚ) × RedisState :=
  let p := redisLrange st it.key 0 (-1)
  (parseAll p.1, p.2)

/-- timer.py lines 50-64: RedisBackend holds the key namespace pfx (source
name: prefix) and the per-key limit. -/
structure RedisBackend where
  pfx : String
  limit : Int
deriving DecidableEq

/-- RedisBackend.__contains__: delegates to redis.exists on the prefixed key. -/
def RedisBackend.containsKey (b : RedisBackend) (st : RedisState) (k : String) :
    Bool × RedisState :=
  redisExists st (b.pfx ++ k)

/-- RedisBackend.__getitem__: a fresh RedisBackendItem for the prefixed key;
performs no remote operation. -/
def RedisBackend.getItem (b : RedisBackend) (k : String) : RedisBackendItem :=
  RedisBackendItem.mk (b.pfx ++ k) b.limit

/-- The list stored at a key (empty when the key is absent). -/
def redisList (st : RedisState) (k : String) : List String :=
  (assocFind st.data k).getD []

/-- A sequence of RedisBackendItem.append calls, in order. -/
def redisAppendAll (it : RedisBackendItem) (st : RedisState) : List ℚ → RedisState
  | [] => st
  | v :: vs => redisAppendAll it (it.append st v) vs

/-- The duck-typed object stored in Timer.measures.  timer.py line 73 defaults
backend to InMemoryBackend itself - the factory lambda, not a constructed
store - so the factory is a representable state of its own: every mapping
operation on it raises TypeError in Python ('in' on a function, subscripting
a function). -/
inductive PyBackend where
  | factory
  | mem (m : MemStore)
  | redis (b : RedisBackend) (st : RedisState)
deriving DecidableEq

/-- timer.py line 73: the default value of Timer.__init__'s backend parameter
is the InMemoryBackend lambda itself (it is never called). -/
def timerDefaultBackend : PyBackend :=
  PyBackend.factory

/-- self.measures[ident].append(delta) (timer.py line 99), per backend. -/
def backendAppendSample : PyBackend → String → ℚ → Except PyError PyBackend
  | PyBackend.factory, _, _ => Except.error PyError.typeError
  | PyBackend.mem m, id, v =>
      match memAppend m id v with
      | Except.error e => Except.error e
      | Except.ok m1 => Except.ok (PyBackend.mem m1)
  | PyBackend.redis b st, id, v =>
      Except.ok (PyBackend.redis b ((RedisBackend.getItem b id).append st v))

/-- timer.py lines 93-103, the @contextmanager scoped region.  t0 and t1 are
the two values the injected time source produces; bodyErr is the error the
caller's body raises, if any.  The generator has no try/finally around the
yield: when the body raises, contextlib throws the exception into the
generator at the yield, it propagates uncaught, and the lines after the
yield (end = method(); append; notify) never run.  Only on a normal exit is
end - start appended.  Returns the resulting Timer.measures state and the
error that propagates to the caller, if any. -/
def timerCall (b : PyBackend) (ident : String) (t0 t1 : ℚ)
    (bodyErr : Option PyError) : PyBackend × Option PyError :=
  match bodyErr with
  | some e => (b, some e)
  | none =>
      match backendAppendSample b ident (t1 - t0) with
      | Except.ok b2 => (b2, none)
      | Except.error e => (b, some e)

/-- timer.py lines 112-117, Timer.getsum: 0.0 when ident is not in the store
or its history is empty, otherwise the sum of the retained samples.  Every
self.measures[ident] subscript is modelled as the store's getitem; on the
redis backend the guard is exists + llen and the sum iterates
lrange(key, 0, -1) parsing each entry.  Returns the value together with the
resulting Timer.measures state. -/
def timerGetsum (b : PyBackend) (id : String) : Except PyError (ℚ × PyBackend) :=
  match b with
  | PyBackend.factory => Except.error PyError.typeError
  | PyBackend.mem m =>
      if memContains m id = false then Except.ok (0, PyBackend.mem m)
      else
        match memGetItem m id with
        | Except.error e => Except.error e
        | Except.ok (xs, m1) =>
            if xs.length = 0 then Except.ok (0, PyBackend.mem m1)
            else
              match memGetItem m1 id with
              | Except.error e => Except.error e
              | Except.ok (ys, m2) => Except.ok (ys.sum, PyBackend.mem m2)
  | PyBackend.redis bk st =>
      let p1 := RedisBackend.containsKey bk st id
      if p1.1 = false then Except.ok (0, PyBackend.redis bk p1.2)
      else
        let it := RedisBackend.getItem bk id
        let p2 := redisLlen p1.2 it.key
        if p2.1 = 0 then Except.ok (0, PyBackend.redis bk p2.2)
        else
          let p3 := RedisBackendItem.iter it p2.2
          match p3.1 with
          | Except.error e => Except.error e
          | Except.ok qs => Except.ok (qs.sum, PyBackend.redis bk p3.2)

/-- timer.py lines 105-110, Timer.getavg: 0.0 when ident is not in the store
or its history is empty, otherwise sum(samples) / len(samples) (the sum is
computed before the length, as in the source). -/
def timerGetavg (b : PyBackend) (id : String) : Except PyError (ℚ × PyBackend) :=
  match b with
  | PyBackend.factory => Except.error PyError.typeError
  | PyBackend.mem m =>
      if memContains m id = false then Except.ok (0, PyBackend.mem m)
      else
        match memGetItem m id with
        | Except.error e => Except.error e
        | Except.ok (xs, m1) =>
            if xs.length = 0 then Except.ok (0, PyBackend.mem m1)
            else
              match memGetItem m1 id with
              | Except.error e => Except.error e
              | Except.ok (ys, m2) =>
                  match memGetItem m2 id with
                  | Except.error e => Except.error e
                  | Except.ok (zs, m3) =>
                      Except.ok (ys.sum / (zs.length : ℚ), PyBackend.mem m3)
  | PyBackend.redis bk st =>
      let p1 := RedisBackend.containsKey bk st id
      if p1.1 = false then Except.ok (0, PyBackend.redis bk p1.2)
      else
        let it := RedisBackend.getItem bk id
        let p2 := redisLlen p1.2 it.key
        if p2.1 = 0 then Except.ok (0, PyBackend.redis bk p2.2)
        else
          let p3 := RedisBackendItem.iter it p2.2
          match p3.1 with
          | Except.error e => Except.error e
          | Except.ok qs =>
              let p4 := redisLlen p3.2 it.key
              Except.ok (qs.sum / (p4.1 : ℚ), PyBackend.redis bk p4.2)

/-- timer.py lines 119-129, Timer.get_time_estimate: None when ident is not in
the store or its history is empty, otherwise self.getavg(ident) * actions. -/
def timerEstimate (b : PyBackend) (id : String) (actions : ℚ) :
    Except PyError (Option ℚ × PyBackend) :=
  match b with
  | PyBackend.factory => Except.error PyError.typeError
  | PyBackend.mem m =>
      if memContains m id = false then Except.ok (none, PyBackend.mem m)
      else
        match memGetItem m id with
        | Except.error e => Except.error e
        | Except.ok (xs, m1) =>
            if xs.length = 0 then Except.ok (none, PyBackend.mem m1)
            else
              match timerGetavg (PyBackend.mem m1) id with
              | Except.error e => Except.error e
              | Except.ok (a, b2) => Except.ok (some (a * actions), b2)
  | PyBackend.redis bk st =>
      let p1 := RedisBackend.containsKey bk st id
      if p1.1 = false then Except.ok (none, PyBackend.redis bk p1.2)
      else
        let it := RedisBackend.getItem bk id
        let p2 := redisLlen p1.2 it.key
        if p2.1 = 0 then Except.ok (none, PyBackend.redis bk p2.2)
        else
          match timerGetavg (PyBackend.redis bk p2.2) id with
          | Except.error e => Except.error e
          | Except.ok (a, b2) => Except.ok (some (a * actions), b2)

/-! Helper lemmas about the association-list store operations. -/

instance {ε α : Type} [DecidableEq ε] [DecidableEq α] : DecidableEq (Except ε α)
  | Except.error e, Except.error f =>
      if h : e = f then isTrue (by rw [h]) else isFalse (fun hh => h (by injection hh))
  | Except.error _, Except.ok _ => isFalse (fun hh => Except.noConfusion hh)
  | Except.ok _, Except.error _ => isFalse (fun hh => Except.noConfusion hh)
  | Except.ok x, Except.ok y =>
      if h : x = y then isTrue (by rw [h]) else isFalse (fun hh => h (by injection hh))

theorem assocFind_assocSet_self {α : Type} (l : List (String × α)) (id : String) (x : α) :
    assocFind (assocSet l id x) id = some x := by
  induction l with
  | nil => simp [assocSet, assocFind]
  | cons kv rest ih =>
      by_cases h : kv.1 = id
      · simp [assocSet, h, assocFind]
      · simp [assocSet, h, assocFind, ih]

theorem assocFind_assocSet_ne {α : Type} (l : List (String × α)) (id k : String) (x : α)
    (h : k ≠ id) : assocFind (assocSet l id x) k = assocFind l k := by
  have hik : ¬ (id = k) := fun hh => h hh.symm
  induction l with
  | nil => simp [assocSet, assocFind, hik]
  | cons kv rest ih =>
      by_cases h1 : kv.1 = id
      · simp [assocSet, h1, assocFind, hik]
      · simp [assocSet, h1, assocFind, ih]

theorem assocFind_assocRemove_ne {α : Type} (l : List (String × α)) (id k : String)
    (h : k ≠ id) : assocFind (assocRemove l id) k = assocFind l k := by
  have hik : ¬ (id = k) := fun hh => h hh.symm
  induction l with
  | nil => simp [assocRemove, assocFind]
  | cons kv rest ih =>
      by_cases h1 : kv.1 = id
      · simp [assocRemove, h1, assocFind, hik]
      · simp [assocRemove, h1, assocFind, ih]

theorem memGetItem_found (m : MemStore) (id : String) (xs : List ℚ)
    (h : assocFind m.tbl id = some xs) : memGetItem m id = Except.ok (xs, m) := by
  simp [memGetItem, h]

theorem memAppend_ok (m : MemStore) (id : String) (v : ℚ) (h : 0 ≤ m.limit) :
    ∃ m2, memAppend m id v = Except.ok m2 ∧ m2.limit = m.limit
      ∧ memSamples m2 id = dequeAppend m.limit (memSamples m id) v := by
  have hd : dequeNew m.limit = Except.ok [] := by
    have h2 : ¬ m.limit < 0 := by omega
    simp [dequeNew, h2]
  cases hf : assocFind m.tbl id with
  | some xs =>
      refine ⟨MemStore.mk m.limit (assocSet m.tbl id (dequeAppend m.limit xs v)), ?_, rfl, ?_⟩
      · simp [memAppend, memGetItem_found m id xs hf]
      · simp [memSamples, assocFind_assocSet_self, hf]
  | none =>
      refine ⟨MemStore.mk m.limit (assocSet (m.tbl ++ [(id, [])]) id (dequeAppend m.limit [] v)),
        ?_, rfl, ?_⟩
      · simp [memAppend, memGetItem, hf, hd]
      · simp [memSamples, assocFind_assocSet_self, hf]

theorem dequeAppend_length (limit : Int) (xs : List ℚ) (v : ℚ) :
    (dequeAppend limit xs v).length = min (xs.length + 1) limit.toNat := by
  simp [dequeAppend]
  omega

theorem dequeAppend_getLast (limit : Int) (xs : List ℚ) (v : ℚ) (h : 1 ≤ limit) :
    (dequeAppend limit xs v).getLast? = some v := by
  have h1 : xs.length + 1 - limit.toNat ≤ xs.length := by omega
  have h2 : (xs ++ [v]).length - limit.toNat = xs.length + 1 - limit.toNat := by
    simp
  simp only [dequeAppend, h2, List.drop_append_of_le_length h1, List.getLast?_concat]

theorem sliceRange_all {α : Type} (l : List α) : sliceRange l 0 (-1) = l := by
  cases l with
  | nil => simp [sliceRange]
  | cons x xs => simp [sliceRange]

/-- C1, counterexample: a scoped region whose body raises does NOT append a
sample.  At the concrete input (fresh in-memory store with limit 100,
identifier "x", time source producing 0 then 1, body raising ValueError) the
exit path leaves the store untouched - zero samples for "x", not exactly one -
while the body's error propagates.  The generator in Timer.__call__ has no
try/finally, so contextlib re-raises the body's exception at the yield and
the append on line 99 is never reached. -/
theorem C1_counterexample :
    timerCall (PyBackend.mem (InMemoryBackend 100)) ("x") 0 1 (some PyError.valueError)
      = (PyBackend.mem (InMemoryBackend 100), some PyError.valueError)
    ∧ memSamples (InMemoryBackend 100) ("x") = [] :=
  ⟨rfl, rfl⟩

/-- C1, amended: for every in-memory-backed Timer (limit at least 1),
identifier and time-source readings, a scoped region whose body raises
appends NOTHING (the store is returned unchanged) and the body's error
propagates unchanged; a region whose body completes normally appends exactly
one sample end - start (the history grows by one up to the limit bound and
its newest element is end - start), which is nonnegative when the time
source is monotonic (start ≤ end). -/
theorem C1_exit_path (m : MemStore) (id : String) (t0 t1 : ℚ) (e : PyError)
    (h : 1 ≤ m.limit) :
    timerCall (PyBackend.mem m) id t0 t1 (some e) = (PyBackend.mem m, some e)
    ∧ ∃ m2, timerCall (PyBackend.mem m) id t0 t1 none = (PyBackend.mem m2, none)
        ∧ (memSamples m2 id).length = min ((memSamples m id).length + 1) m.limit.toNat
        ∧ (memSamples m2 id).getLast? = some (t1 - t0)
        ∧ (t0 ≤ t1 → 0 ≤ t1 - t0) := by
  obtain ⟨m2, hap, hlim, hsamp⟩ := memAppend_ok m id (t1 - t0) (by omega)
  refine ⟨rfl, m2, ?_, ?_, ?_, fun ht => by linarith⟩
  · simp [timerCall, backendAppendSample, hap]
  · rw [hsamp, dequeAppend_length]
  · rw [hsamp]
    exact dequeAppend_getLast _ _ _ h

/-- Witness for C1_exit_path at a concrete input. -/
theorem C1_exit_path_witness :
    timerCall (PyBackend.mem (InMemoryBackend 2)) ("w1") 0 1 (some PyError.valueError)
      = (PyBackend.mem (InMemoryBackend 2), some PyError.valueError) :=
  (C1_exit_path (InMemoryBackend 2) ("w1") 0 1 PyError.valueError (by decide)).1

/-- C2: a Timer constructed without an explicit backend argument does NOT own
a working store.  timer.py line 73 makes the default backend the
InMemoryBackend factory lambda itself (never called), so on a
default-constructed Timer the scoped region's exit-path append and all three
statistics queries raise TypeError instead of operating like a Timer given
an explicitly constructed in-memory store.  This contradicts the code's own
docstring usage example (t = Time(); with t("Timer 1"): ...), so it is a bug
in the code rather than in the claim. -/
theorem C2_default_backend_broken :
    timerDefaultBackend = PyBackend.factory
    ∧ timerCall timerDefaultBackend ("Timer 1") 0 1 none
        = (PyBackend.factory, some PyError.typeError)
    ∧ timerGetsum timerDefaultBackend ("x") = Except.error PyError.typeError
    ∧ timerGetavg timerDefaultBackend ("x") = Except.error PyError.typeError
    ∧ timerEstimate timerDefaultBackend ("x") 10 = Except.error PyError.typeError :=
  ⟨rfl, rfl, rfl, rfl, rfl⟩

/-- C3, counterexample: constructing the in-memory store with capacity 0 does
not raise anything - at construction or ever.  The first append succeeds
(Except.ok) and simply retains nothing, because deque(maxlen=0) is legal in
Python; the claim says capacity 0 raises a configuration error immediately
at construction time. -/
theorem C3_counterexample :
    memAppend (InMemoryBackend 0) ("x") 1 = Except.ok (MemStore.mk 0 [(("x"), [])])
    ∧ memSamples (MemStore.mk 0 [(("x"), [])]) ("x") = [] :=
  ⟨rfl, rfl⟩

/-- C3, amended: InMemoryBackend performs no validation at construction for
any capacity L (the defaultdict is built and the deque factory runs lazily).
For L < 0 a ValueError is raised at the first access to any key (getitem or
append), not at construction; for L = 0 every operation succeeds but the
history retains nothing; for any store with nonnegative limit, append never
fails. -/
theorem C3_lazy_validation (L : Int) (m : MemStore) (id : String) (v : ℚ) :
    ((InMemoryBackend L).limit = L ∧ (InMemoryBackend L).tbl = [])
    ∧ (L < 0 → memGetItem (InMemoryBackend L) id = Except.error PyError.valueError
        ∧ memAppend (InMemoryBackend L) id v = Except.error PyError.valueError)
    ∧ (∃ m2, memAppend (InMemoryBackend 0) id v = Except.ok m2 ∧ memSamples m2 id = [])
    ∧ (0 ≤ m.limit → ∃ m2, memAppend m id v = Except.ok m2) := by
  refine ⟨⟨rfl, rfl⟩, ?_, ?_, ?_⟩
  · intro hL
    have h1 : memGetItem (InMemoryBackend L) id = Except.error PyError.valueError := by
      simp [memGetItem, InMemoryBackend, assocFind, dequeNew, hL]
    exact ⟨h1, by simp [memAppend, h1]⟩
  · obtain ⟨m2, hap, hlim, hsamp⟩ := memAppend_ok (InMemoryBackend 0) id v (by decide)
    refine ⟨m2, hap, ?_⟩
    rw [hsamp]
    simp [dequeAppend, InMemoryBackend]
  · intro hm
    obtain ⟨m2, hap, _, _⟩ := memAppend_ok m id v hm
    exact ⟨m2, hap⟩

/-- Witness for C3_lazy_validation at a concrete input. -/
theorem C3_lazy_validation_witness :
    memGetItem (InMemoryBackend (-1)) ("x") = Except.error PyError.valueError
    ∧ memAppend (InMemoryBackend (-1)) ("x") 1 = Except.error PyError.valueError :=
  (C3_lazy_validation (-1) (InMemoryBackend 5) ("x") 1).2.1 (by decide)

/-- C5: for an identifier that is unknown to the in-memory store or has zero
recorded samples, getsum and getavg return exactly 0.0 while
get_time_estimate returns the distinguished no-estimate value None (never
0.0); likewise on the redis-backed store for a key that does not exist.
The store mapping is left unchanged (only the redis operation log grows by
the existence check). -/
theorem C5_zero_defaults (m : MemStore) (bk : RedisBackend) (st : RedisState)
    (id : String) (n : ℚ)
    (hm : memSamples m id = [])
    (hr : assocFind st.data (bk.pfx ++ id) = none) :
    timerGetsum (PyBackend.mem m) id = Except.ok (0, PyBackend.mem m)
    ∧ timerGetavg (PyBackend.mem m) id = Except.ok (0, PyBackend.mem m)
    ∧ timerEstimate (PyBackend.mem m) id n = Except.ok (none, PyBackend.mem m)
    ∧ (∃ st2, timerGetsum (PyBackend.redis bk st) id = Except.ok (0, PyBackend.redis bk st2)
        ∧ st2.data = st.data)
    ∧ (∃ st2, timerGetavg (PyBackend.redis bk st) id = Except.ok (0, PyBackend.redis bk st2)
        ∧ st2.data = st.data)
    ∧ (∃ st2, timerEstimate (PyBackend.redis bk st) id n
        = Except.ok (none, PyBackend.redis bk st2) ∧ st2.data = st.data) := by
  have hmem : timerGetsum (PyBackend.mem m) id = Except.ok (0, PyBackend.mem m)
      ∧ timerGetavg (PyBackend.mem m) id = Except.ok (0, PyBackend.mem m)
      ∧ timerEstimate (PyBackend.mem m) id n = Except.ok (none, PyBackend.mem m) := by
    cases hf : assocFind m.tbl id with
    | none =>
        refine ⟨?_, ?_, ?_⟩ <;>
          simp [timerGetsum, timerGetavg, timerEstimate, memContains, hf]
    | some xs =>
        have hx : xs = [] := by
          simpa [memSamples, hf] using hm
        have hg := memGetItem_found m id xs hf
        refine ⟨?_, ?_, ?_⟩ <;>
          simp [timerGetsum, timerGetavg, timerEstimate, memContains, hf, hg, hx]
  refine ⟨hmem.1, hmem.2.1, hmem.2.2,
    ⟨RedisState.mk st.data (st.log ++ [RedisOp.rexists (bk.pfx ++ id)]), ?_, rfl⟩,
    ⟨RedisState.mk st.data (st.log ++ [RedisOp.rexists (bk.pfx ++ id)]), ?_, rfl⟩,
    ⟨RedisState.mk st.data (st.log ++ [RedisOp.rexists (bk.pfx ++ id)]), ?_, rfl⟩⟩ <;>
    simp [timerGetsum, timerGetavg, timerEstimate, RedisBackend.containsKey, redisExists, hr]

/-- Witness for C5_zero_defaults at a concrete input (the spec's scenario:
fresh store, identifier "never-touched"). -/
theorem C5_zero_defaults_witness :
    timerGetsum (PyBackend.mem (InMemoryBackend 3)) ("never-touched")
      = Except.ok (0, PyBackend.mem (InMemoryBackend 3)) :=
  (C5_zero_defaults (InMemoryBackend 3) (RedisBackend.mk ("t") 100)
    (RedisState.mk [] []) ("never-touched") 10 (by decide) (by decide)).1

/-- C6: whenever an identifier has at least one retained sample, getavg
equals getsum divided by the number of retained samples, on both store
variants (on the redis variant, under the premise that every stored entry
parses back to a float, qs being the parsed samples and ss the stored
strings, whose count llen reports). -/
theorem C6_avg_is_sum_div_len (m : MemStore) (id : String) (xs : List ℚ)
    (bk : RedisBackend) (st : RedisState) (ss : List String) (qs : List ℚ)
    (hmf : assocFind m.tbl id = some xs) (hmne : xs ≠ [])
    (hrf : assocFind st.data (bk.pfx ++ id) = some ss) (hrne : ss ≠ [])
    (hp : parseAll ss = Except.ok qs) :
    (timerGetsum (PyBackend.mem m) id = Except.ok (xs.sum, PyBackend.mem m)
      ∧ timerGetavg (PyBackend.mem m) id
          = Except.ok (xs.sum / ((memSamples m id).length : ℚ), PyBackend.mem m))
    ∧ ((timerGetsum (PyBackend.redis bk st) id).map Prod.fst = Except.ok qs.sum
      ∧ (timerGetavg (PyBackend.redis bk st) id).map Prod.fst
          = Except.ok (qs.sum / ((redisList st (bk.pfx ++ id)).length : ℚ))) := by
  have hg := memGetItem_found m id xs hmf
  have hlen : xs.length ≠ 0 := fun hh => hmne (List.length_eq_zero.mp hh)
  have hslen : ss.length ≠ 0 := fun hh => hrne (List.length_eq_zero.mp hh)
  refine ⟨⟨?_, ?_⟩, ?_, ?_⟩
  · simp [timerGetsum, memContains, hmf, hg, hlen]
  · simp [timerGetavg, memContains, hmf, hg, hlen, memSamples]
  · simp [timerGetsum, RedisBackend.containsKey, redisExists, hrf, RedisBackend.getItem,
      redisLlen, hslen, RedisBackendItem.iter, redisLrange, sliceRange_all, hp, Except.map]
  · simp [timerGetavg, RedisBackend.containsKey, redisExists, hrf, RedisBackend.getItem,
      redisLlen, hslen, RedisBackendItem.iter, redisLrange, sliceRange_all, hp, redisList,
      Except.map]

/-- Witness for C6_avg_is_sum_div_len at a concrete input. -/
theorem C6_avg_is_sum_div_len_witness :
    timerGetsum (PyBackend.mem (MemStore.mk 5 [(("a"), [1, 2])])) ("a")
      = Except.ok (List.sum [1, 2], PyBackend.mem (MemStore.mk 5 [(("a"), [1, 2])]))
    ∧ timerGetavg (PyBackend.mem (MemStore.mk 5 [(("a"), [1, 2])])) ("a")
      = Except.ok (List.sum [1, 2]
          / ((memSamples (MemStore.mk 5 [(("a"), [1, 2])]) ("a")).length : ℚ),
          PyBackend.mem (MemStore.mk 5 [(("a"), [1, 2])])) :=
  (C6_avg_is_sum_div_len (MemStore.mk 5 [(("a"), [1, 2])]) ("a") [1, 2]
    (RedisBackend.mk ("t") 10) (RedisState.mk [(("ta"), ["1.5"])] []) ["1.5"]
    [mkRat 15 10] (by decide) (by decide) (by decide) (by decide) (by decide)).1

/-- C7: whenever an identifier has at least one retained sample,
get_time_estimate(id, n) equals getavg(id) * n, on both store variants; and
the spec's concrete scenario holds: with capacity 3 and appends 1.0, 2.0,
3.0, 4.0 in order to "job", the retained samples are [2, 3, 4], getsum is
9.0, getavg is 3.0 and the estimate for 5 remaining actions is 15.0. -/
theorem C7_estimate_avg_times_actions (m : MemStore) (id : String) (xs : List ℚ) (n : ℚ)
    (bk : RedisBackend) (st : RedisState) (ss : List String) (qs : List ℚ)
    (hmf : assocFind m.tbl id = some xs) (hmne : xs ≠ [])
    (hrf : assocFind st.data (bk.pfx ++ id) = some ss) (hrne : ss ≠ [])
    (hp : parseAll ss = Except.ok qs) :
    (timerEstimate (PyBackend.mem m) id n
        = Except.ok (some ((xs.sum / ((xs.length : ℚ))) * n), PyBackend.mem m))
    ∧ ((timerEstimate (PyBackend.redis bk st) id n).map Prod.fst
        = Except.ok (some ((qs.sum / ((ss.length : ℚ))) * n)))
    ∧ memAppendAll (InMemoryBackend 3) ("job") [1, 2, 3, 4]
        = Except.ok (MemStore.mk 3 [(("job"), [2, 3, 4])])
    ∧ memSamples (MemStore.mk 3 [(("job"), [2, 3, 4])]) ("job") = [2, 3, 4]
    ∧ (timerGetsum (PyBackend.mem (MemStore.mk 3 [(("job"), [2, 3, 4])])) ("job")).map Prod.fst
        = Except.ok 9
    ∧ (timerGetavg (PyBackend.mem (MemStore.mk 3 [(("job"), [2, 3, 4])])) ("job")).map Prod.fst
        = Except.ok 3
    ∧ (timerEstimate (PyBackend.mem (MemStore.mk 3 [(("job"), [2, 3, 4])])) ("job") 5).map
        Prod.fst = Except.ok (some 15) := by
  have hg := memGetItem_found m id xs hmf
  have hlen : xs.length ≠ 0 := fun hh => hmne (List.length_eq_zero.mp hh)
  have hslen : ss.length ≠ 0 := fun hh => hrne (List.length_eq_zero.mp hh)
  refine ⟨?_, ?_, ?_, ?_, ?_, ?_, ?_⟩
  · simp [timerEstimate, timerGetavg, memContains, hmf, hg, hlen]
  · simp [timerEstimate, timerGetavg, RedisBackend.containsKey, redisExists, hrf,
      RedisBackend.getItem, redisLlen, hslen, RedisBackendItem.iter, redisLrange,
      sliceRange_all, hp, Except.map]
  · simp [memAppendAll, memAppend, memGetItem, assocFind, assocSet, dequeNew, dequeAppend,
      InMemoryBackend]
  · simp [memSamples, assocFind]
  · simp [timerGetsum, memContains, memGetItem, assocFind, Except.map]
    norm_num
  · simp [timerGetavg, memContains, memGetItem, assocFind, Except.map]
    norm_num
  · simp [timerEstimate, timerGetavg, memContains, memGetItem, assocFind, Except.map]
    norm_num

/-- Witness for C7_estimate_avg_times_actions at a concrete input. -/
theorem C7_estimate_avg_times_actions_witness :
    timerEstimate (PyBackend.mem (MemStore.mk 5 [(("a"), [1, 2])])) ("a") 7
      = Except.ok (some ((List.sum [1, 2] / ((List.length [(1 : ℚ), 2] : ℚ))) * 7),
          PyBackend.mem (MemStore.mk 5 [(("a"), [1, 2])])) :=
  (C7_estimate_avg_times_actions (MemStore.mk 5 [(("a"), [1, 2])]) ("a") [1, 2] 7
    (RedisBackend.mk ("t") 10) (RedisState.mk [(("ta"), ["1.5"])] []) ["1.5"]
    [mkRat 15 10] (by decide) (by decide) (by decide) (by decide) (by decide)).1

/-- C8: on the shared redis-backed store, appending a value performs exactly
two remote operations, in order: an lpush of the value's decimal string
representation onto the key prefix+id, then an ltrim of that key to indices
0 .. limit-1; and no key other than prefix+id is touched. -/
theorem C8_append_is_lpush_then_ltrim (bk : RedisBackend) (st : RedisState)
    (id : String) (v : ℚ) :
    ∃ st2, backendAppendSample (PyBackend.redis bk st) id v
        = Except.ok (PyBackend.redis bk st2)
      ∧ st2.log = st.log ++ [RedisOp.lpush (bk.pfx ++ id) (pyStr v),
          RedisOp.ltrim (bk.pfx ++ id) 0 (bk.limit - 1)]
      ∧ (∀ k, k ≠ bk.pfx ++ id → assocFind st2.data k = assocFind st.data k) := by
  refine ⟨redisLtrim (redisLpush st (bk.pfx ++ id) (pyStr v)) (bk.pfx ++ id) 0
    (bk.limit - 1), rfl, ?_, ?_⟩
  · simp [redisLpush, redisLtrim]
  · intro k hk
    simp only [redisLpush, redisLtrim]
    split
    · simp [assocFind_assocRemove_ne _ _ _ hk, assocFind_assocSet_ne _ _ _ _ hk]
    · simp [assocFind_assocSet_ne _ _ _ _ hk]

/-- Witness for C8_append_is_lpush_then_ltrim at a concrete input. -/
theorem C8_append_is_lpush_then_ltrim_witness :
    ∃ st2, backendAppendSample
        (PyBackend.redis (RedisBackend.mk ("t") 3) (RedisState.mk [] [])) ("job") 1
        = Except.ok (PyBackend.redis (RedisBackend.mk ("t") 3) st2)
      ∧ st2.log = [] ++ [RedisOp.lpush ((("t") : String) ++ ("job")) (pyStr 1),
          RedisOp.ltrim ((("t") : String) ++ ("job")) 0 ((3 : Int) - 1)]
      ∧ (∀ k, k ≠ (("t") : String) ++ ("job") →
          assocFind st2.data k = assocFind (RedisState.mk [] []).data k) :=
  C8_append_is_lpush_then_ltrim (RedisBackend.mk ("t") 3) (RedisState.mk [] []) ("job") 1

/-- C10: the three statistics queries are read-only on the in-memory store:
each returns successfully with the store state unchanged (in particular, a
query for an identifier that is not present returns the documented default -
0.0 for getsum and getavg, None for get_time_estimate - without creating an
empty history entry for it, so the set of identifiers in the mapping is
unchanged by any sequence of queries). -/
theorem C10_queries_readonly (m : MemStore) (id : String) (n : ℚ) :
    (∃ q, timerGetsum (PyBackend.mem m) id = Except.ok (q, PyBackend.mem m))
    ∧ (∃ q, timerGetavg (PyBackend.mem m) id = Except.ok (q, PyBackend.mem m))
    ∧ (∃ q, timerEstimate (PyBackend.mem m) id n = Except.ok (q, PyBackend.mem m))
    ∧ (assocFind m.tbl id = none →
        timerGetsum (PyBackend.mem m) id = Except.ok (0, PyBackend.mem m)
        ∧ timerGetavg (PyBackend.mem m) id = Except.ok (0, PyBackend.mem m)
        ∧ timerEstimate (PyBackend.mem m) id n = Except.ok (none, PyBackend.mem m)) := by
  cases hf : assocFind m.tbl id with
  | none =>
      refine ⟨⟨0, ?_⟩, ⟨0, ?_⟩, ⟨none, ?_⟩, fun _ => ⟨?_, ?_, ?_⟩⟩ <;>
        simp [timerGetsum, timerGetavg, timerEstimate, memContains, hf]
  | some xs =>
      have hg := memGetItem_found m id xs hf
      by_cases hx : xs.length = 0
      · refine ⟨⟨0, ?_⟩, ⟨0, ?_⟩, ⟨none, ?_⟩, fun hc => by simp [hf] at hc⟩ <;>
          simp [timerGetsum, timerGetavg, timerEstimate, memContains, hf, hg, hx]
      · refine ⟨⟨xs.sum, ?_⟩, ⟨xs.sum / (xs.length : ℚ), ?_⟩,
          ⟨some ((xs.sum / (xs.length : ℚ)) * n), ?_⟩,
          fun hc => by simp [hf] at hc⟩ <;>
          simp [timerGetsum, timerGetavg, timerEstimate, memContains, hf, hg, hx]

/-- Witness for C10_queries_readonly at a concrete input. -/
theorem C10_queries_readonly_witness :
    timerGetsum (PyBackend.mem (InMemoryBackend 3)) ("q") = Except.ok (0, PyBackend.mem (InMemoryBackend 3))
    ∧ timerGetavg (PyBackend.mem (InMemoryBackend 3)) ("q") = Except.ok (0, PyBackend.mem (InMemoryBackend 3))
    ∧ timerEstimate (PyBackend.mem (InMemoryBackend 3)) ("q") 10
        = Except.ok (none, PyBackend.mem (InMemoryBackend 3)) :=
  (C10_queries_readonly (InMemoryBackend 3) ("q") 10).2.2.2 (by decide)

theorem foldl_dequeAppend (L : Nat) (vs : List ℚ) : ∀ xs : List ℚ, xs.length ≤ L →
    List.foldl (dequeAppend (L : Int)) xs vs
      = (xs ++ vs).drop ((xs ++ vs).length - L) := by
  induction vs with
  | nil =>
      intro xs hxs
      have h0 : xs.length - L = 0 := by omega
      simp [h0]
  | cons v vs ih =>
      intro xs hxs
      have hlen : (dequeAppend (L : Int) xs v).length = min (xs.length + 1) L := by
        rw [dequeAppend_length]
        simp
      have hd : dequeAppend (L : Int) xs v = (xs ++ [v]).drop (xs.length + 1 - L) := by
        simp [dequeAppend]
      have hd2 : xs.length + 1 - L ≤ (xs ++ [v]).length := by
        simp
      have h1 : (dequeAppend (L : Int) xs v) ++ vs
          = ((xs ++ [v]) ++ vs).drop (xs.length + 1 - L) := by
        rw [hd]
        exact (List.drop_append_of_le_length hd2).symm
      rw [List.foldl_cons, ih _ (by omega), h1, List.drop_drop, List.length_drop]
      have hassoc : (xs ++ [v]) ++ vs = xs ++ v :: vs := by simp
      rw [hassoc]
      congr 1
      simp
      omega

example : True := trivial

theorem memAppendAll_spec (id : String) (vs : List ℚ) : ∀ m : MemStore, 0 ≤ m.limit →
    ∃ m2, memAppendAll m id vs = Except.ok m2 ∧ m2.limit = m.limit
      ∧ memSamples m2 id = List.foldl (dequeAppend m.limit) (memSamples m id) vs := by
  induction vs with
  | nil =>
      intro m hm
      exact ⟨m, rfl, rfl, by simp⟩
  | cons v vs ih =>
      intro m hm
      obtain ⟨m1, h1, hl1, hs1⟩ := memAppend_ok m id v hm
      obtain ⟨m2, h2, hl2, hs2⟩ := ih m1 (by rw [hl1]; exact hm)
      refine ⟨m2, ?_, by rw [hl2, hl1], ?_⟩
      · simp [memAppendAll, h1, h2]
      · rw [hs2, hl1, hs1, List.foldl_cons]

theorem sliceRange_zero_trim {α : Type} (l : List α) (L : Int) (hL : 1 ≤ L)
    (hl : l ≠ []) : sliceRange l 0 (L - 1) = List.take L.toNat l := by
  have hn : 1 ≤ l.length := by
    cases l with
    | nil => exact absurd rfl hl
    | cons x xs => simp
  have h1 : ¬ (L - 1 < (0 : Int)) := by omega
  have h2 : (max (0 : Int) 0) = 0 := by omega
  simp only [sliceRange, h1, if_false]
  have h3 : (0 : Int) ≤ min (L - 1) ((l.length : Int) - 1) := by omega
  rw [if_pos]
  · have h4 : ((if (0 : Int) < 0 then (0 : Int) + (l.length : Int) else 0) ⊔ 0).toNat = 0 := by
      norm_num
    rw [h4, List.drop_zero, List.take_eq_take]
    omega
  · omega

theorem take_append_take {α : Type} (L : Nat) (a b : List α) :
    List.take L (a ++ List.take L b) = List.take L (a ++ b) := by
  rw [List.take_append_eq_append_take, List.take_append_eq_append_take, List.take_take]
  have hmin : (L - a.length) ⊓ L = L - a.length := by omega
  rw [hmin]

theorem redisItemAppend_list (it : RedisBackendItem) (st : RedisState) (v : ℚ)
    (h : 1 ≤ it.limit) :
    redisList (it.append st v) it.key
      = List.take it.limit.toNat (pyStr v :: redisList st it.key) := by
  have hw : assocFind (redisLpush st it.key (pyStr v)).data it.key
      = some (pyStr v :: redisList st it.key) := by
    simp [redisLpush, assocFind_assocSet_self, redisList]
  have hkept : sliceRange ((assocFind (redisLpush st it.key (pyStr v)).data it.key).getD [])
      0 (it.limit - 1) = List.take it.limit.toNat (pyStr v :: redisList st it.key) := by
    rw [hw]
    simp only [Option.getD_some]
    exact sliceRange_zero_trim _ _ h (by simp)
  have hne : ¬ (List.take it.limit.toNat (pyStr v :: redisList st it.key) = []) := by
    have h0 : 0 < it.limit.toNat := by omega
    simp [List.take_cons h0]
  simp only [RedisBackendItem.append, redisLtrim, hkept]
  rw [if_neg hne]
  simp [redisList, assocFind_assocSet_self]

theorem redisAppendAll_list (it : RedisBackendItem) (h : 1 ≤ it.limit) (vs : List ℚ) :
    ∀ st : RedisState, (redisList st it.key).length ≤ it.limit.toNat →
    redisList (redisAppendAll it st vs) it.key
      = List.take it.limit.toNat ((vs.reverse.map pyStr) ++ redisList st it.key) := by
  induction vs with
  | nil =>
      intro st hst
      simp only [redisAppendAll, List.reverse_nil, List.map_nil, List.nil_append]
      exact (List.take_of_length_le hst).symm
  | cons v vs ih =>
      intro st hst
      have h1 := redisItemAppend_list it st v h
      have h2 : (redisList (it.append st v) it.key).length ≤ it.limit.toNat := by
        rw [h1]
        simp
      have h3 := ih (it.append st v) h2
      rw [redisAppendAll, h3, h1, take_append_take]
      congr 1
      simp

/-- C4: for every capacity L >= 1, identifier, and sequence of N appends, the
retained history length is min(N, L) and, when N > L, the history holds
exactly the L most recently appended values, on both store variants: the
in-memory deque retains the suffix vs.drop (N - L) in insertion order, and
the redis list retains the same L most recent values newest-first (as their
decimal string representations), starting from an absent key. -/
theorem C4_bounded_history (L : Nat) (id : String) (vs : List ℚ)
    (bk : RedisBackend) (st : RedisState) (hL : 1 ≤ L) (hb : bk.limit = (L : Int))
    (habsent : assocFind st.data (bk.pfx ++ id) = none) :
    (∃ m2, memAppendAll (InMemoryBackend (L : Int)) id vs = Except.ok m2
      ∧ memSamples m2 id = vs.drop (vs.length - L)
      ∧ (memSamples m2 id).length = min vs.length L)
    ∧ (redisList (redisAppendAll (RedisBackend.getItem bk id) st vs) (bk.pfx ++ id)
        = ((vs.drop (vs.length - L)).reverse).map pyStr
      ∧ (redisList (redisAppendAll (RedisBackend.getItem bk id) st vs)
          (bk.pfx ++ id)).length = min vs.length L) := by
  have hrevtake : vs.reverse.take L = (vs.drop (vs.length - L)).reverse := by
    have hh : (vs.reverse.take L).reverse = vs.drop (vs.length - L) := by
      rw [List.reverse_take]
      simp
    rw [← hh, List.reverse_reverse]
  constructor
  · obtain ⟨m2, hall, hlim, hsamp⟩ := memAppendAll_spec id vs (InMemoryBackend (L : Int))
      (by simp [InMemoryBackend])
    have hfresh : memSamples (MemStore.mk (L : Int) []) id = [] := by
      simp [memSamples, assocFind]
    have hfold := foldl_dequeAppend L vs [] (by simp)
    simp only [InMemoryBackend] at hsamp
    rw [hfresh, hfold] at hsamp
    simp only [List.nil_append] at hsamp
    refine ⟨m2, hall, hsamp, ?_⟩
    rw [hsamp]
    simp
    omega
  · have hit : RedisBackend.getItem bk id
        = RedisBackendItem.mk (bk.pfx ++ id) (L : Int) := by
      simp [RedisBackend.getItem, hb]
    have hstart : (redisList st (bk.pfx ++ id)).length ≤ (L : Int).toNat := by
      simp [redisList, habsent]
    have hlist := redisAppendAll_list (RedisBackendItem.mk (bk.pfx ++ id) (L : Int))
      (by simp; omega) vs st (by simpa using hstart)
    rw [hit]
    simp only [redisList, habsent, Option.getD_none, List.append_nil] at hlist
    have hlist2 : redisList (redisAppendAll (RedisBackendItem.mk (bk.pfx ++ id) (L : Int)) st vs)
        (bk.pfx ++ id) = List.take L (vs.reverse.map pyStr) := by
      simpa using hlist
    rw [hlist2]
    constructor
    · rw [← List.map_take, hrevtake]
    · simp
      omega

/-- Witness for C4_bounded_history at a concrete input (the spec's scenario:
capacity 3, four appends). -/
theorem C4_bounded_history_witness :
    ∃ m2, memAppendAll (InMemoryBackend ((3 : Nat) : Int)) ("job") [1, 2, 3, 4]
        = Except.ok m2
      ∧ memSamples m2 ("job")
          = List.drop (List.length [(1 : ℚ), 2, 3, 4] - 3) [1, 2, 3, 4]
      ∧ (memSamples m2 ("job")).length = min (List.length [(1 : ℚ), 2, 3, 4]) 3 :=
  (C4_bounded_history 3 ("job") [1, 2, 3, 4] (RedisBackend.mk ("t") 3)
    (RedisState.mk [] []) (by decide) (by decide) (by decide)).1

theorem digitOfChar_charOfDigit (d : Nat) (h : d < 10) :
    digitOfChar (charOfDigit d) = some d := by
  interval_cases d <;> decide

theorem charOfDigit_ne_dot (d : Nat) : charOfDigit d ≠ '.' := by
  simp only [charOfDigit]
  split_ifs <;> decide

theorem charOfDigit_ne_minus (d : Nat) : charOfDigit d ≠ '-' := by
  simp only [charOfDigit]
  split_ifs <;> decide

theorem parseDigitsAux_append (l1 l2 : List Char) (acc : Nat) :
    parseDigitsAux (l1 ++ l2) acc
      = match parseDigitsAux l1 acc with
        | some a => parseDigitsAux l2 a
        | none => none := by
  induction l1 generalizing acc with
  | nil => simp [parseDigitsAux]
  | cons c cs ih =>
      simp only [List.cons_append, parseDigitsAux]
      cases digitOfChar c with
      | none => simp
      | some d => simp [ih]

theorem natCharsAux_ne_dot (fuel n : Nat) : ∀ c ∈ natCharsAux fuel n, c ≠ '.' := by
  induction fuel generalizing n with
  | zero => simp [natCharsAux]
  | succ fuel ih =>
      intro c hc
      simp only [natCharsAux] at hc
      by_cases h : n = 0
      · simp [h] at hc
      · rw [if_neg h] at hc
        rcases List.mem_append.mp hc with h1 | h1
        · exact ih (n / 10) c h1
        · rcases List.mem_singleton.mp h1 with rfl
          exact charOfDigit_ne_dot _

theorem natCharsAux_ne_minus (fuel n : Nat) : ∀ c ∈ natCharsAux fuel n, c ≠ '-' := by
  induction fuel generalizing n with
  | zero => simp [natCharsAux]
  | succ fuel ih =>
      intro c hc
      simp only [natCharsAux] at hc
      by_cases h : n = 0
      · simp [h] at hc
      · rw [if_neg h] at hc
        rcases List.mem_append.mp hc with h1 | h1
        · exact ih (n / 10) c h1
        · rcases List.mem_singleton.mp h1 with rfl
          exact charOfDigit_ne_minus _

theorem natCharsAux_parse (fuel : Nat) : ∀ n acc : Nat, n ≠ 0 → n ≤ fuel →
    parseDigitsAux (natCharsAux fuel n) acc
      = some (acc * 10 ^ (natCharsAux fuel n).length + n) := by
  induction fuel with
  | zero =>
      intro n acc hn hf
      omega
  | succ fuel ih =>
      intro n acc hn hf
      simp only [natCharsAux, if_neg hn]
      rw [parseDigitsAux_append]
      by_cases h0 : n / 10 = 0
      · have hsmall : n < 10 := by omega
        have hz : natCharsAux fuel (n / 10) = [] := by
          cases fuel with
          | zero => rfl
          | succ f => simp [natCharsAux, h0]
        rw [hz]
        simp [parseDigitsAux, digitOfChar_charOfDigit (n % 10) (by omega)]
        omega
      · rw [ih (n / 10) acc h0 (by omega)]
        simp [parseDigitsAux, digitOfChar_charOfDigit (n % 10) (by omega)]
        ring_nf
        omega

theorem natCharsAux_length (fuel : Nat) : ∀ n k : Nat, n ≤ fuel → n < 10 ^ k →
    (natCharsAux fuel n).length ≤ k := by
  induction fuel with
  | zero =>
      intro n k hf hk
      simp [natCharsAux]
  | succ fuel ih =>
      intro n k hf hk
      by_cases h : n = 0
      · simp [natCharsAux, h]
      · have hk1 : k ≠ 0 := by
          intro hc
          rw [hc] at hk
          omega
        simp only [natCharsAux, if_neg h, List.length_append, List.length_singleton]
        have hdiv : n / 10 < 10 ^ (k - 1) := by
          have h10 : (10 : Nat) ^ k = 10 ^ (k - 1) * 10 := by
            rw [← pow_succ]
            congr 1
            omega
          omega
        have := ih (n / 10) (k - 1) (by omega) hdiv
        omega

theorem natCharsAux_ne_nil (fuel n : Nat) (hn : n ≠ 0) (hf : n ≤ fuel) :
    natCharsAux fuel n ≠ [] := by
  cases fuel with
  | zero => omega
  | succ f =>
      simp [natCharsAux, hn]

theorem parse_replicate_zero (z : Nat) (l : List Char) :
    parseDigitsAux (List.replicate z '0' ++ l) 0 = parseDigitsAux l 0 := by
  induction z with
  | zero => simp
  | succ z ih =>
      simp only [List.replicate_succ, List.cons_append, parseDigitsAux]
      simpa [digitOfChar] using ih

theorem splitAtDot_append (l r : List Char) (h : ∀ c ∈ l, c ≠ '.') :
    splitAtDot (l ++ '.' :: r) = (l, some r) := by
  induction l with
  | nil => simp [splitAtDot]
  | cons c cs ih =>
      have hc : c ≠ '.' := h c (by simp)
      simp only [List.cons_append, splitAtDot, if_neg hc, List.append_eq]
      rw [ih (fun x hx => h x (by simp [hx]))]

theorem stripCount_spec (p : Nat) (hp : 2 ≤ p) : ∀ fuel n : Nat, n ≠ 0 → n ≤ fuel →
    n = p ^ (stripCount p fuel n).1 * (stripCount p fuel n).2
    ∧ ¬ p ∣ (stripCount p fuel n).2 ∧ (stripCount p fuel n).2 ≠ 0 := by
  intro fuel
  induction fuel with
  | zero =>
      intro n hn hf
      omega
  | succ fuel ih =>
      intro n hn hf
      by_cases hc : n % p = 0 ∧ n ≠ 0
      · have hdvd : p ∣ n := Nat.dvd_of_mod_eq_zero hc.1
        have hq : n / p ≠ 0 := by
          intro h0
          have := Nat.div_mul_cancel hdvd
          rw [h0] at this
          omega
        have hqf : n / p ≤ fuel := by
          have : n / p < n := Nat.div_lt_self (by omega) (by omega)
          omega
        obtain ⟨ha, hb, hz⟩ := ih (n / p) hq hqf
        simp only [stripCount, if_pos hc]
        refine ⟨?_, hb, hz⟩
        rw [pow_succ]
        calc n = p * (n / p) := (Nat.mul_div_cancel' hdvd).symm
        _ = p * (p ^ (stripCount p fuel (n / p)).1 * (stripCount p fuel (n / p)).2) := by
              rw [← ha]
        _ = p ^ (stripCount p fuel (n / p)).1 * p * (stripCount p fuel (n / p)).2 := by ring
      · simp only [stripCount, if_neg hc]
        refine ⟨by simp, ?_, hn⟩
        intro hdvd
        obtain ⟨c, rfl⟩ := hdvd
        exact hc ⟨Nat.mul_mod_right p c, hn⟩

example : True := trivial

theorem decExp_sound (d : Nat) (hd : d ≠ 0) (k : Nat) (h : decExp d = some k) :
    d ∣ 10 ^ k ∧ 1 ≤ k := by
  have hs2 := stripCount_spec 2 (by omega) d d hd (le_refl d)
  have hs5 := stripCount_spec 5 (by omega) (stripCount 2 d d).2 (stripCount 2 d d).2
    hs2.2.2 (le_refl _)
  simp only [decExp] at h
  set s2 := stripCount 2 d d with hset2
  set s5 := stripCount 5 s2.2 s2.2 with hset5
  by_cases h1 : s5.2 = 1
  · rw [if_pos h1] at h
    have hk : k = max (max s2.1 s5.1) 1 := (Option.some.inj h).symm
    have hdec : d = 2 ^ s2.1 * 5 ^ s5.1 := by
      calc d = 2 ^ s2.1 * s2.2 := hs2.1
      _ = 2 ^ s2.1 * (5 ^ s5.1 * s5.2) := by rw [← hs5.1]
      _ = 2 ^ s2.1 * 5 ^ s5.1 := by rw [h1, mul_one]
    constructor
    · rw [hdec]
      have h10 : (10 : Nat) ^ k = 2 ^ k * 5 ^ k := by
        rw [← Nat.mul_pow]
      rw [h10]
      exact mul_dvd_mul (pow_dvd_pow 2 (by omega)) (pow_dvd_pow 5 (by omega))
    · omega
  · rw [if_neg h1] at h
    cases h

theorem decExp_complete (d : Nat) (hd : d ≠ 0) (j : Nat) (h : d ∣ 10 ^ j) :
    ∃ k, decExp d = some k := by
  have hs2 := stripCount_spec 2 (by omega) d d hd (le_refl d)
  have hs5 := stripCount_spec 5 (by omega) (stripCount 2 d d).2 (stripCount 2 d d).2
    hs2.2.2 (le_refl _)
  set s2 := stripCount 2 d d with hset2
  set s5 := stripCount 5 s2.2 s2.2 with hset5
  have hr5r2 : s5.2 ∣ s2.2 := by
    rw [hs5.1]
    exact dvd_mul_left _ _
  have hr2d : s2.2 ∣ d := by
    rw [hs2.1]
    exact dvd_mul_left _ _
  have hr5 : s5.2 ∣ 10 ^ j := dvd_trans (dvd_trans hr5r2 hr2d) h
  have hnot2 : ¬ 2 ∣ s5.2 := fun hdd => hs2.2.1 (dvd_trans hdd hr5r2)
  have hcop : Nat.Coprime s5.2 (10 ^ j) := by
    refine Nat.Coprime.pow_right j ?_
    have hc2 : Nat.Coprime s5.2 2 :=
      ((Nat.Prime.coprime_iff_not_dvd Nat.prime_two).mpr hnot2).symm
    have hc5 : Nat.Coprime s5.2 5 :=
      ((Nat.Prime.coprime_iff_not_dvd Nat.prime_five).mpr hs5.2.1).symm
    have h25 : (10 : Nat) = 2 * 5 := by norm_num
    rw [h25]
    exact Nat.Coprime.mul_right hc2 hc5
  have h1 : s5.2 = 1 := Nat.Coprime.eq_one_of_dvd hcop hr5
  refine ⟨max (max s2.1 s5.1) 1, ?_⟩
  simp only [decExp]
  rw [← hset2, ← hset5, if_pos h1]

theorem natChars_parse (n : Nat) : parseDigitsAux (natChars n) 0 = some n := by
  by_cases h : n = 0
  · rw [h]
    decide
  · simp only [natChars, if_neg h]
    rw [natCharsAux_parse n n 0 h (le_refl n)]
    simp

theorem natChars_ne_dot (n : Nat) : ∀ c ∈ natChars n, c ≠ '.' := by
  by_cases h : n = 0
  · rw [h]
    decide
  · simp only [natChars, if_neg h]
    exact natCharsAux_ne_dot n n

theorem natChars_ne_minus (n : Nat) : ∀ c ∈ natChars n, c ≠ '-' := by
  by_cases h : n = 0
  · rw [h]
    decide
  · simp only [natChars, if_neg h]
    exact natCharsAux_ne_minus n n

theorem natChars_ne_nil (n : Nat) : natChars n ≠ [] := by
  by_cases h : n = 0
  · rw [h]
    decide
  · simp only [natChars, if_neg h]
    exact natCharsAux_ne_nil n n h (le_refl n)

theorem natChars_length (n k : Nat) (hk : 1 ≤ k) (hn : n < 10 ^ k) :
    (natChars n).length ≤ k := by
  by_cases h : n = 0
  · rw [h]
    simpa [natChars] using hk
  · simp only [natChars, if_neg h]
    exact natCharsAux_length n n k (le_refl n) hn

theorem pyFloatCore_body (i f k : Nat) (hk : 1 ≤ k) (hf : f < 10 ^ k) :
    pyFloatCore (natChars i ++ '.' :: (List.replicate (k - (natChars f).length) '0'
      ++ natChars f)) = some (mkRat ((i * 10 ^ k + f : Nat) : Int) (10 ^ k)) := by
  have hsplit := splitAtDot_append (natChars i)
    (List.replicate (k - (natChars f).length) '0' ++ natChars f) (natChars_ne_dot i)
  have hfl : (natChars f).length ≤ k := natChars_length f k hk hf
  have hfraclen : (List.replicate (k - (natChars f).length) '0' ++ natChars f).length
      = k := by
    simp
    omega
  have hfrac : parseDigitsAux (List.replicate (k - (natChars f).length) '0'
      ++ natChars f) 0 = some f := by
    rw [parse_replicate_zero, natChars_parse]
  simp only [pyFloatCore, hsplit, natChars_ne_nil i, if_neg (natChars_ne_nil i),
    natChars_parse, hfrac, hfraclen]
  simp

theorem pyFloat_mk_cons (c : Char) (cs : List Char) (hcm : c ≠ '-') :
    pyFloat (String.mk (c :: cs)) = pyFloatCore (c :: cs) := by
  simp [pyFloat, hcm]

theorem pyFloat_mk_neg (cs : List Char) (hne : cs ≠ []) :
    pyFloat (String.mk ('-' :: cs)) = (pyFloatCore cs).map (fun x => -x) := by
  cases cs with
  | nil => exact absurd rfl hne
  | cons a b => simp [pyFloat]

/-- Round-trip of the modelled serialization: parsing the printed decimal
expansion of any decimal-terminating rational (every Python float is one)
recovers it exactly. -/
theorem pyFloat_pyStr (v : ℚ) (j : Nat) (hdvd : (v.den : ℕ) ∣ 10 ^ j) :
    pyFloat (pyStr v) = some v := by
  have hd0 : v.den ≠ 0 := (Rat.den_pos v).ne'
  obtain ⟨k, hk⟩ := decExp_complete v.den hd0 j hdvd
  obtain ⟨hkd, hk1⟩ := decExp_sound v.den hd0 k hk
  have hpow0 : (0 : Nat) < 10 ^ k := pow_pos (by omega) k
  have hmD : v.num.natAbs * 10 ^ k / v.den * v.den = v.num.natAbs * 10 ^ k :=
    Nat.div_mul_cancel (Dvd.dvd.mul_left hkd _)
  set m := v.num.natAbs * 10 ^ k / v.den with hm
  set i := m / 10 ^ k with hi
  set f := m % 10 ^ k with hf
  have hif : i * 10 ^ k + f = m := by
    rw [hi, hf, Nat.mul_comm]
    exact Nat.div_add_mod m (10 ^ k)
  have hcore := pyFloatCore_body i f k hk1 (Nat.mod_lt _ hpow0)
  have hql : mkRat ((i * 10 ^ k + f : Nat) : Int) (10 ^ k)
      = (v.num.natAbs : ℚ) / (v.den : ℚ) := by
    rw [Rat.mkRat_eq_div, hif]
    rw [div_eq_div_iff (by positivity) (by exact_mod_cast (Rat.den_pos v).ne')]
    push_cast
    exact_mod_cast hmD
  have hstr : pyStr v = String.mk (if v.num < 0
      then '-' :: (natChars i ++ '.' :: (List.replicate (k - (natChars f).length) '0'
        ++ natChars f))
      else natChars i ++ '.' :: (List.replicate (k - (natChars f).length) '0'
        ++ natChars f)) := by
    simp only [pyStr, hk]
  by_cases hneg : v.num < 0
  · rw [hstr, if_pos hneg,
      pyFloat_mk_neg _ (fun hh => natChars_ne_nil i (List.append_eq_nil.mp hh).1), hcore]
    have hA : ((v.num.natAbs : ℚ)) = -((v.num : ℤ) : ℚ) := by
      have hz0 : (v.num.natAbs : ℤ) = -v.num := by omega
      have hz : ((v.num.natAbs : ℤ) : ℚ) = ((-v.num : ℤ) : ℚ) :=
        congrArg (fun x : ℤ => (x : ℚ)) hz0
      rw [Int.cast_neg, Int.cast_natCast] at hz
      exact hz
    simp only [Option.map_some']
    congr 1
    rw [hql, hA, neg_div, neg_neg, Rat.num_div_den]
  · rw [hstr, if_neg hneg]
    obtain ⟨c0, cs0, hc0⟩ := List.exists_cons_of_ne_nil (natChars_ne_nil i)
    have hbody : natChars i ++ '.' :: (List.replicate (k - (natChars f).length) '0'
        ++ natChars f) = c0 :: (cs0 ++ '.' :: (List.replicate (k - (natChars f).length) '0'
        ++ natChars f)) := by
      rw [hc0]
      rfl
    have hcm : c0 ≠ '-' := natChars_ne_minus i c0 (by rw [hc0]; simp)
    rw [hbody, pyFloat_mk_cons c0 _ hcm, ← hbody, hcore, hql]
    have hA : ((v.num.natAbs : ℚ)) = ((v.num : ℤ) : ℚ) := by
      have hz0 : (v.num.natAbs : ℤ) = v.num := by omega
      have hz : ((v.num.natAbs : ℤ) : ℚ) = ((v.num : ℤ) : ℚ) :=
        congrArg (fun x : ℤ => (x : ℚ)) hz0
      rw [Int.cast_natCast] at hz
      exact hz
    rw [hA, Rat.num_div_den]

/-- C9: serialization round-trip through the shared store.  For every float
value v (modelled: a rational whose denominator divides a power of ten, as
every Python float's does) appended through RedisBackendItem.append - which
stores str(v) - iterating the same key yields exactly the float v back, and
the underlying str/float round-trip is exact. -/
theorem C9_roundtrip (v : ℚ) (j : Nat) (it : RedisBackendItem) (st : RedisState)
    (hdvd : (v.den : ℕ) ∣ 10 ^ j) (hlim : 1 ≤ it.limit)
    (habsent : assocFind st.data it.key = none) :
    pyFloat (pyStr v) = some v
    ∧ (RedisBackendItem.iter it (it.append st v)).1 = Except.ok [v] := by
  refine ⟨pyFloat_pyStr v j hdvd, ?_⟩
  have h0 : 0 < it.limit.toNat := by omega
  have hlist : redisList (it.append st v) it.key = [pyStr v] := by
    rw [redisItemAppend_list it st v hlim]
    simp [redisList, habsent, List.take_cons h0]
  have hiter : (RedisBackendItem.iter it (it.append st v)).1
      = parseAll (sliceRange (redisList (it.append st v) it.key) 0 (-1)) := rfl
  rw [hiter, hlist, sliceRange_all]
  simp [parseAll, pyFloat_pyStr v j hdvd]

/-- Witness for C9_roundtrip at the spec's example value 0.0025. -/
theorem C9_roundtrip_witness :
    pyFloat (pyStr (mkRat 25 10000)) = some (mkRat 25 10000) :=
  (C9_roundtrip (mkRat 25 10000) 4 (RedisBackendItem.mk ("tjob") 100)
    (RedisState.mk [] []) (by decide) (by decide) (by decide)).1
